import Mathlib

/-!
Verification model of the SVGS EV Porsche controller code
(`First_version/porsche_main_application.py`, `first_tests/standalone_test.py`,
`first_tests/stm32_simulator.py`).

Python strings are modelled as `List Char` (ASCII fragment).  Python numbers
are modelled exactly: `int` as `Int`, `float` values as `Rat` — every numeric
literal appearing in the verified claims has an exact double representation,
so rational comparison agrees with the float comparison the code performs.
-/

namespace EVSpec

/-- ASCII whitespace recognised by Python str.strip() and int()/float(). -/
def pyIsSpace (c : Char) : Bool :=
  c == ' ' || c == '\t' || c == '\n' || c == '\r' || c == Char.ofNat 11 || c == Char.ofNat 12

/-- Python str.strip(): remove whitespace at both ends. -/
def pyStrip (l : List Char) : List Char :=
  ((l.dropWhile pyIsSpace).reverse.dropWhile pyIsSpace).reverse

/-- Python str.lstrip(c): remove every leading occurrence of c. -/
def lstripChar (c : Char) (l : List Char) : List Char :=
  l.dropWhile (fun x => x == c)

/-- Python str.rstrip(c): remove every trailing occurrence of c. -/
def rstripChar (c : Char) (l : List Char) : List Char :=
  (l.reverse.dropWhile (fun x => x == c)).reverse

/-- Split at the first character satisfying p: (before, after), the matching
character removed; none when no character matches. -/
def splitFirstBy (p : Char → Bool) : List Char → Option (List Char × List Char)
  | [] => none
  | x :: xs =>
    if p x then some ([], xs)
    else (splitFirstBy p xs).map (fun q => (x :: q.1, q.2))

/-- Python s.split(c, 1) when c occurs in s; none when it does not. -/
def splitFirst (c : Char) (l : List Char) : Option (List Char × List Char) :=
  splitFirstBy (fun x => x == c) l

/-- Python s.split(c): split on every occurrence of c. -/
def splitAll (c : Char) : List Char → List (List Char)
  | [] => [[]]
  | x :: xs =>
    if x == c then [] :: splitAll c xs
    else
      match splitAll c xs with
      | [] => [[x]]
      | t :: ts => (x :: t) :: ts

/-- Numeric value of an ASCII digit character. -/
def digitVal (c : Char) : Nat := c.toNat - 48

/-- Continuation of a Python digitpart (digit optionally separated by single
underscores): accumulated value and number of digits seen so far. -/
def dpGo (acc cnt : Nat) : List Char → Option (Nat × Nat)
  | [] => some (acc, cnt)
  | c :: rest =>
    if c.isDigit then dpGo (10 * acc + digitVal c) (cnt + 1) rest
    else if c == '_' then
      match rest with
      | [] => none
      | d :: rest2 => if d.isDigit then dpGo (10 * acc + digitVal d) (cnt + 1) rest2 else none
    else none

/-- Python digitpart: nonempty digit run, single underscores allowed between
digits; returns (value, number of digits). -/
def digitpartVal : List Char → Option (Nat × Nat)
  | [] => none
  | c :: rest => if c.isDigit then dpGo (digitVal c) 1 rest else none

/-- Python int(s) on an ASCII string: surrounding whitespace, optional sign,
digitpart. -/
def pyIntParse (s : List Char) : Option Int :=
  match pyStrip s with
  | '+' :: r => (digitpartVal r).map (fun p => (p.1 : Int))
  | '-' :: r => (digitpartVal r).map (fun p => -(p.1 : Int))
  | r => (digitpartVal r).map (fun p => (p.1 : Int))

/-- Mantissa of a Python float literal as an exact fraction (numerator,
power-of-ten denominator): digitpart, or digitpart "." optional digitpart,
or "." digitpart. -/
def mantissaND (m : List Char) : Option (Nat × Nat) :=
  match splitFirst '.' m with
  | none => (digitpartVal m).map (fun p => (p.1, 1))
  | some ipfp =>
    match ipfp.1, ipfp.2 with
    | [], [] => none
    | [], fp => (digitpartVal fp).map (fun q => (q.1, 10 ^ q.2))
    | ip, [] => (digitpartVal ip).map (fun p => (p.1, 1))
    | ip, fp =>
      match digitpartVal ip, digitpartVal fp with
      | some p, some q => some (p.1 * 10 ^ q.2 + q.1, 10 ^ q.2)
      | _, _ => none

/-- Optionally signed digitpart (the exponent of a float literal). -/
def signedDigits (e : List Char) : Option Int :=
  match e with
  | '+' :: r => (digitpartVal r).map (fun p => (p.1 : Int))
  | '-' :: r => (digitpartVal r).map (fun p => -(p.1 : Int))
  | r => (digitpartVal r).map (fun p => (p.1 : Int))

/-- Python float(s) on the numeric literal forms: whitespace, sign, mantissa,
optional exponent; the result is the literal's exact rational value.  The
inf/nan spellings contain no '.', and the code calls float only on strings
containing '.', so they never reach this call site. -/
def pyFloatNumParse (s : List Char) : Option Rat :=
  let t := pyStrip s
  let st : Int × List Char :=
    match t with
    | '+' :: r => (1, r)
    | '-' :: r => (-1, r)
    | r => (1, r)
  let mexp : List Char × Option (List Char) :=
    match splitFirstBy (fun c => c == 'e' || c == 'E') st.2 with
    | none => (st.2, none)
    | some me => (me.1, some me.2)
  match mantissaND mexp.1, (match mexp.2 with | none => some 0 | some e => signedDigits e) with
  | some nd, some ex =>
    if 0 ≤ ex then some (mkRat (st.1 * (nd.1 * 10 ^ ex.toNat : Nat)) nd.2)
    else some (mkRat (st.1 * (nd.1 : Nat)) (nd.2 * 10 ^ (-ex).toNat))
  | _, _ => none

/-- Python values appearing in decoded payloads and in controller state. -/
inductive PyVal where
  | vInt : Int → PyVal
  | vFloat : Rat → PyVal
  | vStr : List Char → PyVal
  | vBool : Bool → PyVal
deriving DecidableEq

/-- Numeric view used by Python comparisons: bool counts as 0/1, strings are
not numbers. -/
def numValQ : PyVal → Option Rat
  | .vInt n => some (n : Rat)
  | .vFloat q => some q
  | .vBool b => some (if b then 1 else 0)
  | .vStr _ => none

/-- Python == between payload values: cross-type numeric equality, string
equality, numbers never equal strings. -/
def pyEq (a b : PyVal) : Bool :=
  match numValQ a, numValQ b with
  | some x, some y => x == y
  | none, none =>
    match a, b with
    | .vStr s, .vStr t => s == t
    | _, _ => false
  | _, _ => false

/-- True when the value is a float. -/
def isFloatVal : PyVal → Bool
  | .vFloat _ => true
  | _ => false

/-- Typing of a decoded value string (porsche_main_application.py lines
121-127): a value containing '.' is given to float(), otherwise to int(); a
ValueError leaves the value as the original string. -/
def typeValue (value : List Char) : PyVal :=
  if value.contains '.' then
    match pyFloatNumParse value with
    | some q => .vFloat q
    | none => .vStr value
  else
    match pyIntParse value with
    | some n => .vInt n
    | none => .vStr value

/-- Insertion-ordered dictionary (Python dict): replacing an existing key
keeps its position, a new key is appended at the end. -/
abbrev Dict := List (List Char × PyVal)

def dictInsert (d : Dict) (k : List Char) (v : PyVal) : Dict :=
  if d.any (fun p => p.1 == k) then
    d.map (fun p => if p.1 == k then (k, v) else p)
  else d ++ [(k, v)]

def dictLookup (d : Dict) (k : List Char) : Option PyVal :=
  (d.find? (fun p => p.1 == k)).map (fun p => p.2)

/-- Python dict.update: insert every pair of the second dict in order. -/
def dictUpdate (d d2 : Dict) : Dict :=
  d2.foldl (fun acc kv => dictInsert acc kv.1 kv.2) d

def dictHasKey (d : Dict) (k : List Char) : Bool :=
  d.any (fun p => p.1 == k)

/-- A decoded message: kind token and typed payload (the timestamp field of
the Python dict is wall-clock time and is not modelled). -/
structure Msg where
  type : List Char
  data : Dict
deriving DecidableEq

/-- Parameter loop of EVProtocol._parse_message (identical in the main
application and in standalone_test.py): a token with '=' is split at the
first '=' and its value typed; a token without '=' becomes a boolean-true
flag. -/
def parseParams (dataStr : List Char) : Dict :=
  (splitAll ';' dataStr).foldl
    (fun data param =>
      match splitFirst '=' param with
      | some kv => dictInsert data kv.1 (typeValue kv.2)
      | none => dictInsert data param (.vBool true))
    []

/-- The same loop as written in stm32_simulator.STM32Simulator._parse_message:
the boolean-flag branch is absent, so tokens without '=' are dropped. -/
def parseParamsSim (dataStr : List Char) : Dict :=
  (splitAll ';' dataStr).foldl
    (fun data param =>
      match splitFirst '=' param with
      | some kv => dictInsert data kv.1 (typeValue kv.2)
      | none => data)
    []

/-- message.strip().lstrip('<').rstrip('>') applied to a raw frame. -/
def stripFrame (message : List Char) : List Char :=
  rstripChar '>' (lstripChar '<' (pyStrip message))

/-- The payload section of a raw frame: what follows the first ':' of the
stripped frame (empty when there is no ':'). -/
def payloadSection (message : List Char) : List Char :=
  match splitFirst ':' (stripFrame message) with
  | some td => td.2
  | none => []

/-- EVProtocol._parse_message of porsche_main_application.py: kind before the
first ':', typed parameters after it.  On a string input none of the steps
can raise, so the except branch returning None is unreachable. -/
def parseMessage (message : List Char) : Msg :=
  let m := stripFrame message
  match splitFirst ':' m with
  | some td => { type := td.1, data := if td.2.isEmpty then [] else parseParams td.2 }
  | none => { type := m, data := [] }

/-- EVProtocol._parse_message as duplicated in standalone_test.py (its extra
'raw' field is not modelled; kind and payload are computed identically). -/
def parseMessageStandalone (message : List Char) : Msg :=
  let m := stripFrame message
  match splitFirst ':' m with
  | some td => { type := td.1, data := if td.2.isEmpty then [] else parseParams td.2 }
  | none => { type := m, data := [] }

/-- STM32Simulator._parse_message: identical framing and kind logic, but its
parameter loop drops tokens without '='. -/
def parseMessageSim (message : List Char) : Msg :=
  let m := stripFrame message
  match splitFirst ':' m with
  | some td => { type := td.1, data := if td.2.isEmpty then [] else parseParamsSim td.2 }
  | none => { type := m, data := [] }

/-- Decimal digit character. -/
def digitChar (n : Nat) : Char := Char.ofNat (48 + n)

/-- Digit accumulation for natRepr; the fuel argument only bounds the digit
count (n strictly shrinks on every step), it never runs out for the initial
fuel n+1. -/
def natReprGo : Nat → Nat → List Char → List Char
  | 0, _, acc => acc
  | fuel + 1, n, acc =>
    if n < 10 then digitChar n :: acc
    else natReprGo fuel (n / 10) (digitChar (n % 10) :: acc)

/-- Decimal representation of a natural number, as Python str(). -/
def natRepr (n : Nat) : List Char := natReprGo (n + 1) n []

/-- Python str() of an int. -/
def intRepr : Int → List Char
  | .ofNat n => natRepr n
  | .negSucc m => '-' :: natRepr (m + 1)

/-- Python str() of a payload value, as interpolated into the outgoing
f-string.  str() of a float is CPython's shortest round-trip decimal
formatting — a floating-point formatting concern not modelled here — so
rendering is defined only for payloads without float values. -/
def pyStrOfVal : PyVal → Option (List Char)
  | .vInt n => some (intRepr n)
  | .vFloat _ => none
  | .vStr s => some s
  | .vBool b => some (if b then "True".data else "False".data)

/-- One rendered parameter: key '=' value. -/
def renderParam (kv : List Char × PyVal) : Option (List Char) :=
  (pyStrOfVal kv.2).map (fun vs => kv.1 ++ '=' :: vs)

/-- EVProtocol._build_message: '<' kind then, when the parameter dict is
nonempty (an empty dict is falsy in Python), ':' and the ';'-joined rendered
parameters, then '>'. -/
def buildMessage (msgType : List Char) (params : List (List Char × PyVal)) :
    Option (List Char) :=
  if params.isEmpty then some ('<' :: msgType ++ ['>'])
  else
    (params.mapM renderParam).map
      (fun strs => '<' :: msgType ++ ':' :: List.intercalate [';'] strs ++ ['>'])

theorem splitFirstBy_length {p : Char → Bool} :
    ∀ {l a b : List Char}, splitFirstBy p l = some (a, b) → b.length < l.length := by
  intro l
  induction l with
  | nil => intro a b h; simp [splitFirstBy] at h
  | cons x xs ih =>
    intro a b h
    by_cases hx : p x
    · simp [splitFirstBy, hx] at h
      simp [← h.2]
    · simp only [splitFirstBy, hx, if_neg, Bool.false_eq_true, ite_false, Option.map_eq_some'] at h
      obtain ⟨q, hq, hab⟩ := h
      have := ih (a := q.1) (b := q.2) (by rw [hq])
      cases hab
      simpa using Nat.lt_succ_of_lt this

/-- Frame extraction loop of EVProtocol._receive_loop (lines 85-98): find the
first '<', then the first '>' after it; if both exist, emit the inclusive
frame and repeat on the rest; otherwise stop, keeping the whole buffer.
Returns (extracted raw frames, remaining buffer). -/
def extractFrames (buffer : List Char) : List (List Char) × List Char :=
  match h1 : splitFirst '<' buffer with
  | none => ([], buffer)
  | some gr =>
    match h2 : splitFirst '>' gr.2 with
    | none => ([], buffer)
    | some mt =>
      let r := extractFrames mt.2
      (('<' :: mt.1 ++ ['>']) :: r.1, r.2)
termination_by buffer.length
decreasing_by
  have l1 := splitFirstBy_length h1
  have l2 := splitFirstBy_length h2
  omega

/-- The receive loop across successive serial reads: each incoming chunk is
appended to the carried buffer and the extraction loop runs; frames from all
chunks are accumulated in order. -/
def processChunks (buffer : List Char) : List (List Char) → List (List Char) × List Char
  | [] => ([], buffer)
  | chunk :: rest =>
    let r := extractFrames (buffer ++ chunk)
    let r2 := processChunks r.2 rest
    (r.1 ++ r2.1, r2.2)

/-- Whether one drained message satisfies EVProtocol.wait_for_ack's matching
condition: kind ACK, and the command is a payload key or the payload's ACK
entry equals the command string. -/
def isMatchingAck (command : List Char) (m : Msg) : Bool :=
  m.type == "ACK".data &&
    (dictHasKey m.data command ||
      (match dictLookup m.data "ACK".data with
       | some v => pyEq v (.vStr command)
       | none => false))

/-- EVProtocol.wait_for_ack: the timeout window is abstracted as the finite
list of messages drained from the inbox before the deadline expires; the
loop returns true at the first matching ACK and false when the window is
exhausted without a match. -/
def wait_for_ack (command : List Char) : List Msg → Bool
  | [] => false
  | m :: rest => if isMatchingAck command m then true else wait_for_ack command rest

/-- Configuration entries used by the modelled code paths (ConfigManager
defaults: 80.0, 15.0, true, 100, 50.0). -/
structure Config where
  overheat_threshold : Rat
  low_battery_threshold : Rat
  emergency_stop_on_fault : Bool
  max_throttle : Int
  current_limit : PyVal
deriving DecidableEq

/-- Controller state mutated by the dispatch callbacks: merged telemetry,
ordered fault list, connectivity flag. -/
structure CState where
  telemetry : Dict
  faults : List PyVal
  connected : Bool
deriving DecidableEq

/-- Append a fault name unless an == equal one is already present (the
`if fault not in self.faults: self.faults.append(fault)` pattern). -/
def addFaultIfAbsent (f : PyVal) (fs : List PyVal) : List PyVal :=
  if fs.any (fun x => pyEq x f) then fs else fs ++ [f]

/-- EVController._check_safety_conditions.  A non-numeric TEMP or SOC makes
the Python comparison raise TypeError, which _trigger_callback catches: the
mutations after the raising comparison are skipped. -/
def check_safety (cfg : Config) (s : CState) : CState :=
  let temp := (dictLookup s.telemetry "TEMP".data).getD (.vInt 0)
  let soc := (dictLookup s.telemetry "SOC".data).getD (.vInt 100)
  match numValQ temp with
  | none => s
  | some t =>
    let s1 :=
      if cfg.overheat_threshold < t then
        { s with faults := addFaultIfAbsent (.vStr "OVERHEAT".data) s.faults }
      else s
    match numValQ soc with
    | none => s1
    | some b =>
      if b < cfg.low_battery_threshold then
        { s1 with faults := addFaultIfAbsent (.vStr "LOW_BATTERY".data) s1.faults }
      else s1

/-- EVController._handle_telemetry: merge the payload into the telemetry map,
mark connected, run the safety checks.  (The CSV-logging branch touches no
controller state and is not modelled.) -/
def handle_telemetry (cfg : Config) (m : Msg) (s : CState) : CState :=
  check_safety cfg { s with telemetry := dictUpdate s.telemetry m.data, connected := true }

/-- The wire frame produced by emergency_stop's send_message(ESTOP). -/
def estopFrame : List Char := '<' :: "ESTOP".data ++ ['>']

/-- The fault name carried by a FAULT message: payload FAULT entry, defaulting
to the string UNKNOWN. -/
def faultOf (m : Msg) : PyVal :=
  (dictLookup m.data "FAULT".data).getD (.vStr "UNKNOWN".data)

/-- EVController._handle_fault, returning the new state and the list of wire
frames transmitted before the callback returns (emergency_stop sends the
ESTOP frame when emergency_stop_on_fault is set). -/
def handle_fault (cfg : Config) (m : Msg) (s : CState) : CState × List (List Char) :=
  let fault := faultOf m
  if s.faults.any (fun x => pyEq x fault) then (s, [])
  else
    ({ s with faults := s.faults ++ [fault] },
     if cfg.emergency_stop_on_fault then [estopFrame] else [])

/-- EVController.set_current_limit: send SET_CURRENT_LIMIT with LIMIT and
store the new limit only after a confirmed acknowledgement.  sendOk models
the boolean result of send_message; inbox is the window of messages drained
by wait_for_ack before its 0.5 s timeout. -/
def set_current_limit (current : PyVal) (sendOk : Bool) (inbox : List Msg) (cfg : Config) :
    Bool × Config :=
  if sendOk && wait_for_ack "SET_CURRENT_LIMIT".data inbox then
    (true, { cfg with current_limit := current })
  else (false, cfg)

/-- EVController.set_max_throttle: clamp the argument to [0,100], send
SET_MAX_CURRENT with MAX_THROTTLE, store the clamped value only on a
confirmed acknowledgement.  Also returns the frame handed to the serial
writer. -/
def set_max_throttle (n : Int) (sendOk : Bool) (inbox : List Msg) (cfg : Config) :
    Bool × Config × Option (List Char) :=
  let clamped := max 0 (min 100 n)
  let frame := buildMessage "SET_MAX_CURRENT".data [("MAX_THROTTLE".data, .vInt clamped)]
  if sendOk && wait_for_ack "SET_MAX_CURRENT".data inbox then
    (true, { cfg with max_throttle := clamped }, frame)
  else (false, cfg, frame)

/-- EVController.reset_faults: faults are cleared only after a confirmed
acknowledgement. -/
def reset_faults (sendOk : Bool) (inbox : List Msg) (s : CState) : Bool × CState :=
  if sendOk && wait_for_ack "RESET_FAULT".data inbox then
    (true, { s with faults := [] })
  else (false, s)

/-- Fault lists reachable from the empty initial state through the
fault-mutating operations of the controller: telemetry handling (threshold
faults), fault-message handling, and fault reset. -/
inductive ReachableFaults : List PyVal → Prop where
  | start : ReachableFaults []
  | telem (cfg : Config) (m : Msg) (t : Dict) (c : Bool) {fs : List PyVal} :
      ReachableFaults fs → ReachableFaults (handle_telemetry cfg m ⟨t, fs, c⟩).faults
  | fault (cfg : Config) (m : Msg) (t : Dict) (c : Bool) {fs : List PyVal} :
      ReachableFaults fs → ReachableFaults (handle_fault cfg m ⟨t, fs, c⟩).1.faults
  | reset (sendOk : Bool) (inbox : List Msg) (t : Dict) (c : Bool) {fs : List PyVal} :
      ReachableFaults fs → ReachableFaults (reset_faults sendOk inbox ⟨t, fs, c⟩).2.faults

theorem splitFirstBy_eq_none {p : Char → Bool} :
    ∀ {l : List Char}, splitFirstBy p l = none ↔ ∀ y ∈ l, p y = false := by
  intro l
  induction l with
  | nil => simp [splitFirstBy]
  | cons x xs ih =>
    by_cases hx : p x
    · simp [splitFirstBy, hx]
    · rw [splitFirstBy, if_neg (by simp [hx])]
      simp only [Option.map_eq_none', List.mem_cons]
      constructor
      · intro hnone y hy
        rcases hy with rfl | hy
        · exact Bool.eq_false_iff.mpr hx
        · exact (ih.mp hnone) y hy
      · intro hall
        exact ih.mpr (fun y hy => hall y (Or.inr hy))

theorem splitFirstBy_eq_some {p : Char → Bool} :
    ∀ {l a b : List Char}, splitFirstBy p l = some (a, b) →
      ∃ x, p x = true ∧ l = a ++ x :: b ∧ ∀ y ∈ a, p y = false := by
  intro l
  induction l with
  | nil => intro a b h; simp [splitFirstBy] at h
  | cons x xs ih =>
    intro a b h
    by_cases hx : p x
    · rw [splitFirstBy, if_pos hx] at h
      injection h with h
      cases h
      exact ⟨x, hx, rfl, by simp⟩
    · simp only [splitFirstBy, hx, if_neg, Bool.false_eq_true, ite_false,
        Option.map_eq_some'] at h
      obtain ⟨q, hq, hab⟩ := h
      obtain ⟨y, hy, hl, ha⟩ := ih (a := q.1) (b := q.2) (by rw [hq])
      cases hab
      refine ⟨y, hy, by simp [hl], ?_⟩
      intro z hz
      rcases List.mem_cons.mp hz with hz | hz
      · rw [hz]; exact Bool.eq_false_iff.mpr hx
      · exact ha z hz

theorem splitFirstBy_append_sound {p : Char → Bool} {a b : List Char} (x : Char)
    (ha : ∀ y ∈ a, p y = false) (hx : p x = true) :
    splitFirstBy p (a ++ x :: b) = some (a, b) := by
  induction a with
  | nil => simp [splitFirstBy, hx]
  | cons z zs ih =>
    have hz : p z = false := ha z (by simp)
    have ihz := ih (fun y hy => ha y (by simp [hy]))
    simp [splitFirstBy, hz, ihz]

theorem splitFirstBy_append_left {p : Char → Bool} {l a b : List Char} (s : List Char)
    (h : splitFirstBy p l = some (a, b)) :
    splitFirstBy p (l ++ s) = some (a, b ++ s) := by
  obtain ⟨x, hx, hl, ha⟩ := splitFirstBy_eq_some h
  rw [hl, List.append_assoc, List.cons_append]
  exact splitFirstBy_append_sound x ha hx

theorem extract_eq_no_open {buffer : List Char} (h : splitFirst '<' buffer = none) :
    extractFrames buffer = ([], buffer) := by
  unfold extractFrames
  split
  · rfl
  · next gr h1 =>
    rw [h] at h1
    cases h1

theorem extract_eq_no_close {buffer : List Char} {gr : List Char × List Char}
    (h1 : splitFirst '<' buffer = some gr) (h2 : splitFirst '>' gr.2 = none) :
    extractFrames buffer = ([], buffer) := by
  unfold extractFrames
  split
  · rfl
  · next gr2 hgr =>
    rw [h1] at hgr
    injection hgr with hgr
    subst hgr
    split
    · rfl
    · next mt hmt =>
      rw [h2] at hmt
      cases hmt

theorem extract_eq_frame {buffer : List Char} {gr mt : List Char × List Char}
    (h1 : splitFirst '<' buffer = some gr) (h2 : splitFirst '>' gr.2 = some mt) :
    extractFrames buffer =
      (('<' :: mt.1 ++ ['>']) :: (extractFrames mt.2).1, (extractFrames mt.2).2) := by
  conv_lhs => unfold extractFrames
  split
  · next hno =>
    rw [h1] at hno
    cases hno
  · next gr2 hgr =>
    rw [h1] at hgr
    injection hgr with hgr
    subst hgr
    split
    · next hno =>
      rw [h2] at hno
      cases hno
    · next mt2 hmt =>
      rw [h2] at hmt
      injection hmt with hmt
      subst hmt
      rfl

theorem extract_append (b s : List Char) :
    extractFrames (b ++ s) =
      ((extractFrames b).1 ++ (extractFrames ((extractFrames b).2 ++ s)).1,
       (extractFrames ((extractFrames b).2 ++ s)).2) := by
  generalize hn : b.length = n
  induction n using Nat.strong_induction_on generalizing b s with
  | _ n ih =>
  match h1 : splitFirst '<' b with
  | none =>
    have hb : extractFrames b = ([], b) := extract_eq_no_open h1
    simp [hb]
  | some gr =>
    match h2 : splitFirst '>' gr.2 with
    | none =>
      have hb : extractFrames b = ([], b) := extract_eq_no_close h1 h2
      simp [hb]
    | some mt =>
      have hb := extract_eq_frame h1 h2
      have h1s : splitFirst '<' (b ++ s) = some (gr.1, gr.2 ++ s) :=
        splitFirstBy_append_left s h1
      have h2s : splitFirst '>' (gr.2 ++ s) = some (mt.1, mt.2 ++ s) :=
        splitFirstBy_append_left s h2
      have hbs := extract_eq_frame h1s h2s
      have hlen : mt.2.length < n := by
        have l1 := splitFirstBy_length h1
        have l2 := splitFirstBy_length h2
        omega
      have hih := ih mt.2.length hlen mt.2 s rfl
      rw [hbs, hb]
      simp only [hih]
      simp

theorem extract_residue (b : List Char) :
    extractFrames ((extractFrames b).2) = ([], (extractFrames b).2) := by
  have h := extract_append b []
  rw [List.append_nil, List.append_nil] at h
  have h1 := congrArg Prod.fst h
  have h2 := congrArg Prod.snd h
  dsimp only at h1 h2
  have hlen := congrArg List.length h1
  rw [List.length_append] at hlen
  have hfst : (extractFrames ((extractFrames b).2)).1 = [] :=
    List.length_eq_zero.mp (by omega)
  exact Prod.ext hfst h2.symm

theorem processChunks_extract :
    ∀ (chunks : List (List Char)) (buffer : List Char),
      extractFrames buffer = ([], buffer) →
      processChunks buffer chunks = extractFrames (buffer ++ chunks.flatten) := by
  intro chunks
  induction chunks with
  | nil =>
    intro buffer h
    simpa [processChunks] using h.symm
  | cons c rest ih =>
    intro buffer _
    have hres := extract_residue (buffer ++ c)
    have hih := ih (extractFrames (buffer ++ c)).2 hres
    have happ := extract_append (buffer ++ c) rest.flatten
    simp only [processChunks, List.flatten_cons, hih]
    rw [← List.append_assoc, happ]

/-- C1: feeding a byte sequence to the receive loop's delimiter scan in any
sequence of chunks (each appended to the carried buffer, the scan rerun)
yields exactly the frames, and the same final carried buffer, as delivering
all the bytes as one single chunk; in particular incomplete trailing frames
are carried over and completed by later chunks, and no frame is ever lost to
the leading-garbage drop (garbage is only discarded when a complete frame
after it is emitted). -/
theorem frame_extraction_chunk_invariance (chunks : List (List Char)) :
    processChunks [] chunks = extractFrames chunks.flatten := by
  have h0 : extractFrames ([] : List Char) = ([], []) := by
    rw [extract_eq_no_open]
    rfl
  simpa using processChunks_extract chunks [] h0

theorem wait_for_ack_eq_any (command : List Char) :
    ∀ inbox : List Msg, wait_for_ack command inbox = inbox.any (isMatchingAck command) := by
  intro inbox
  induction inbox with
  | nil => rfl
  | cons m rest ih =>
    by_cases hm : isMatchingAck command m = true
    · simp [wait_for_ack, hm]
    · simp only [Bool.not_eq_true] at hm
      simp [wait_for_ack, hm, ih]

theorem pyEq_vStr_iff (v : PyVal) (s : List Char) :
    pyEq v (.vStr s) = true ↔ v = .vStr s := by
  cases v <;> simp [pyEq, numValQ]

theorem isMatchingAck_iff (command : List Char) (m : Msg) :
    isMatchingAck command m = true ↔
      m.type = "ACK".data ∧
        (dictHasKey m.data command = true ∨
          dictLookup m.data "ACK".data = some (.vStr command)) := by
  unfold isMatchingAck
  cases hl : dictLookup m.data "ACK".data with
  | none => simp [hl]
  | some v => simp [hl, pyEq_vStr_iff]

/-- C2: wait_for_ack(command, timeout) returns true iff, among the messages
drained from the inbox within the timeout window, there is one of kind ACK
whose payload references the command — the command present as a payload key,
or the payload's ACK entry equal to the command string; a NACK (kind is not
ACK) or the absence of a matching ACK both leave the result false,
indistinguishably.  In particular draining the message decoded from
<ACK:ACK=SET_MAX_CURRENT> yields true for command SET_MAX_CURRENT, while a
NACK for the same command yields false. -/
theorem wait_for_ack_spec :
    (∀ (command : List Char) (inbox : List Msg),
      wait_for_ack command inbox = true ↔
        ∃ m ∈ inbox, m.type = "ACK".data ∧
          (dictHasKey m.data command = true ∨
            dictLookup m.data "ACK".data = some (.vStr command))) ∧
    wait_for_ack "SET_MAX_CURRENT".data
      [parseMessage "<ACK:ACK=SET_MAX_CURRENT>".data] = true ∧
    wait_for_ack "SET_MAX_CURRENT".data
      [parseMessage "<NACK:CMD=SET_MAX_CURRENT;REASON=LIMIT>".data] = false := by
  refine ⟨?_, by decide, by decide⟩
  intro command inbox
  rw [wait_for_ack_eq_any, List.any_eq_true]
  constructor
  · rintro ⟨m, hmem, hm⟩
    exact ⟨m, hmem, (isMatchingAck_iff command m).mp hm⟩
  · rintro ⟨m, hmem, hm⟩
    exact ⟨m, hmem, (isMatchingAck_iff command m).mpr hm⟩

theorem find?_map_subst_self (k : List Char) (v : PyVal) :
    ∀ d : Dict, d.any (fun p => p.1 == k) = true →
      (d.map (fun p => if p.1 == k then (k, v) else p)).find? (fun p => p.1 == k) =
        some (k, v) := by
  intro d
  induction d with
  | nil => simp
  | cons q qs ih =>
    intro hany
    by_cases hq : (q.1 == k) = true
    · rw [List.map_cons, if_pos hq]
      simp only [List.find?_cons, beq_self_eq_true]
    · have hqf : (q.1 == k) = false := by simpa using hq
      have hany' : qs.any (fun p => p.1 == k) = true := by
        rw [List.any_cons, hqf] at hany
        rwa [Bool.false_or] at hany
      rw [List.map_cons, if_neg hq]
      simp only [List.find?_cons, hqf]
      exact ih hany'

theorem find?_map_subst_ne (k k' : List Char) (v : PyVal) (hne : k' ≠ k) :
    ∀ d : Dict,
      (d.map (fun p => if p.1 == k then (k, v) else p)).find? (fun p => p.1 == k') =
        d.find? (fun p => p.1 == k') := by
  intro d
  induction d with
  | nil => simp
  | cons q qs ih =>
    by_cases hq : (q.1 == k) = true
    · have hq1 : q.1 = k := by simpa using hq
      have t1 : (k == k') = false := by simpa using (Ne.symm hne)
      have t2 : (q.1 == k') = false := by rw [hq1]; exact t1
      rw [List.map_cons, if_pos hq]
      simp only [List.find?_cons, t1, t2]
      exact ih
    · rw [List.map_cons, if_neg hq]
      by_cases hq' : (q.1 == k') = true
      · simp only [List.find?_cons, hq']
      · have hq'f : (q.1 == k') = false := by simpa using hq'
        simp only [List.find?_cons, hq'f]
        exact ih

theorem dictLookup_dictInsert_self (d : Dict) (k : List Char) (v : PyVal) :
    dictLookup (dictInsert d k v) k = some v := by
  unfold dictInsert dictLookup
  by_cases hany : d.any (fun p => p.1 == k) = true
  · rw [if_pos hany, find?_map_subst_self k v d hany]
    rfl
  · rw [if_neg hany, List.find?_append]
    have hnone : d.find? (fun p => p.1 == k) = none := by
      rw [List.find?_eq_none]
      intro x hx hcontra
      exact hany (List.any_eq_true.mpr ⟨x, hx, hcontra⟩)
    rw [hnone]
    simp

theorem dictLookup_dictInsert_ne (d : Dict) (k k' : List Char) (v : PyVal) (hne : k' ≠ k) :
    dictLookup (dictInsert d k v) k' = dictLookup d k' := by
  unfold dictInsert dictLookup
  by_cases hany : d.any (fun p => p.1 == k) = true
  · rw [if_pos hany, find?_map_subst_ne k k' v hne d]
  · rw [if_neg hany, List.find?_append]
    have hlast : ([(k, v)].find? (fun p => p.1 == k')) = none := by
      simp [show (k == k') = false from by simpa using (Ne.symm hne)]
    rw [hlast]
    simp

theorem any_addFaultIfAbsent (f g : PyVal) (fs : List PyVal) (hfg : pyEq f g = false) :
    (addFaultIfAbsent f fs).any (fun x => pyEq x g) = fs.any (fun x => pyEq x g) := by
  unfold addFaultIfAbsent
  split
  · rfl
  · simp [List.any_append, hfg]

/-- C3: for every controller state, handling the telemetry message decoded
from <DATA:TEMP=85.0;SOC=50> under overheat threshold 80 and low-battery
threshold 15 merges TEMP and SOC into the telemetry map, marks the
connection live, appends the fault OVERHEAT only if it is not already
present, and never adds LOW_BATTERY; both threshold comparisons are strict,
so the boundary frame <DATA:TEMP=80.0;SOC=15> adds no fault at all. -/
theorem telemetry_overheat_scenario (cfg : Config) (s : CState)
    (hot : cfg.overheat_threshold = 80) (hlb : cfg.low_battery_threshold = 15) :
    dictLookup (handle_telemetry cfg (parseMessage "<DATA:TEMP=85.0;SOC=50>".data) s).telemetry
        "TEMP".data = some (.vFloat 85) ∧
    dictLookup (handle_telemetry cfg (parseMessage "<DATA:TEMP=85.0;SOC=50>".data) s).telemetry
        "SOC".data = some (.vInt 50) ∧
    (handle_telemetry cfg (parseMessage "<DATA:TEMP=85.0;SOC=50>".data) s).connected = true ∧
    (handle_telemetry cfg (parseMessage "<DATA:TEMP=85.0;SOC=50>".data) s).faults =
      addFaultIfAbsent (.vStr "OVERHEAT".data) s.faults ∧
    ((handle_telemetry cfg (parseMessage "<DATA:TEMP=85.0;SOC=50>".data) s).faults.any
        (fun x => pyEq x (.vStr "LOW_BATTERY".data)) =
      s.faults.any (fun x => pyEq x (.vStr "LOW_BATTERY".data))) ∧
    (handle_telemetry cfg (parseMessage "<DATA:TEMP=80.0;SOC=15>".data) s).faults = s.faults := by
  have hp : parseMessage "<DATA:TEMP=85.0;SOC=50>".data =
      { type := "DATA".data, data := [("TEMP".data, .vFloat 85), ("SOC".data, .vInt 50)] } := by
    decide
  have hp2 : parseMessage "<DATA:TEMP=80.0;SOC=15>".data =
      { type := "DATA".data, data := [("TEMP".data, .vFloat 80), ("SOC".data, .vInt 15)] } := by
    decide
  have hTne : ("TEMP".data : List Char) ≠ "SOC".data := by decide
  have hT : dictLookup
      (dictUpdate s.telemetry [("TEMP".data, PyVal.vFloat 85), ("SOC".data, PyVal.vInt 50)])
      "TEMP".data = some (.vFloat 85) := by
    show dictLookup
      (dictInsert (dictInsert s.telemetry "TEMP".data (.vFloat 85)) "SOC".data (.vInt 50))
      "TEMP".data = some (.vFloat 85)
    rw [dictLookup_dictInsert_ne _ _ _ _ hTne, dictLookup_dictInsert_self]
  have hS : dictLookup
      (dictUpdate s.telemetry [("TEMP".data, PyVal.vFloat 85), ("SOC".data, PyVal.vInt 50)])
      "SOC".data = some (.vInt 50) := by
    show dictLookup
      (dictInsert (dictInsert s.telemetry "TEMP".data (.vFloat 85)) "SOC".data (.vInt 50))
      "SOC".data = some (.vInt 50)
    rw [dictLookup_dictInsert_self]
  have hT2 : dictLookup
      (dictUpdate s.telemetry [("TEMP".data, PyVal.vFloat 80), ("SOC".data, PyVal.vInt 15)])
      "TEMP".data = some (.vFloat 80) := by
    show dictLookup
      (dictInsert (dictInsert s.telemetry "TEMP".data (.vFloat 80)) "SOC".data (.vInt 15))
      "TEMP".data = some (.vFloat 80)
    rw [dictLookup_dictInsert_ne _ _ _ _ hTne, dictLookup_dictInsert_self]
  have hS2 : dictLookup
      (dictUpdate s.telemetry [("TEMP".data, PyVal.vFloat 80), ("SOC".data, PyVal.vInt 15)])
      "SOC".data = some (.vInt 15) := by
    show dictLookup
      (dictInsert (dictInsert s.telemetry "TEMP".data (.vFloat 80)) "SOC".data (.vInt 15))
      "SOC".data = some (.vInt 15)
    rw [dictLookup_dictInsert_self]
  have hmain : handle_telemetry cfg (parseMessage "<DATA:TEMP=85.0;SOC=50>".data) s =
      { telemetry :=
          dictUpdate s.telemetry [("TEMP".data, .vFloat 85), ("SOC".data, .vInt 50)],
        faults := addFaultIfAbsent (.vStr "OVERHEAT".data) s.faults,
        connected := true } := by
    rw [hp]
    unfold handle_telemetry check_safety
    simp only [hT, hS, Option.getD_some, numValQ]
    rw [hot, hlb]
    rw [if_pos (show (80 : Rat) < 85 by norm_num)]
    rw [if_neg (show ¬ (((50 : Int) : Rat) < 15) by norm_num)]
  have hmain2 : handle_telemetry cfg (parseMessage "<DATA:TEMP=80.0;SOC=15>".data) s =
      { telemetry :=
          dictUpdate s.telemetry [("TEMP".data, .vFloat 80), ("SOC".data, .vInt 15)],
        faults := s.faults,
        connected := true } := by
    rw [hp2]
    unfold handle_telemetry check_safety
    simp only [hT2, hS2, Option.getD_some, numValQ]
    rw [hot, hlb]
    rw [if_neg (show ¬ ((80 : Rat) < 80) by norm_num)]
    rw [if_neg (show ¬ (((15 : Int) : Rat) < 15) by norm_num)]
  refine ⟨?_, ?_, ?_, ?_, ?_, ?_⟩
  · rw [hmain]; exact hT
  · rw [hmain]; exact hS
  · rw [hmain]
  · rw [hmain]
  · rw [hmain]
    exact any_addFaultIfAbsent _ _ _ (by decide)
  · rw [hmain2]

/-- C4 counterexample: with emergency-stop-on-fault enabled but the fault
OVERCURRENT already present in the controller state, handling the message
decoded from <FAULT:FAULT=OVERCURRENT> transmits no frame at all and leaves
the state unchanged — refuting the claim that processing a fault message
causes an ESTOP transmission for every controller state. -/
theorem fault_estop_counterexample :
    handle_fault
      { overheat_threshold := 80, low_battery_threshold := 15,
        emergency_stop_on_fault := true, max_throttle := 100, current_limit := .vFloat 50 }
      (parseMessage "<FAULT:FAULT=OVERCURRENT>".data)
      { telemetry := [], faults := [.vStr "OVERCURRENT".data], connected := false } =
      ({ telemetry := [], faults := [.vStr "OVERCURRENT".data], connected := false }, []) := by
  decide

/-- C4 (amended): with emergency-stop-on-fault enabled, handling a decoded
fault message whose fault name is not already present appends that fault and
transmits an ESTOP frame before the callback returns; the transmitted frame
is exactly the encoder's output for the ESTOP command. -/
theorem fault_estop_new_fault (cfg : Config) (m : Msg) (s : CState)
    (hcfg : cfg.emergency_stop_on_fault = true)
    (hnew : s.faults.any (fun x => pyEq x (faultOf m)) = false) :
    handle_fault cfg m s =
      ({ s with faults := s.faults ++ [faultOf m] }, [estopFrame]) ∧
    buildMessage "ESTOP".data [] = some estopFrame := by
  constructor
  · simp [handle_fault, hnew, hcfg]
  · decide

theorem fault_estop_new_fault_witness :
    ({ overheat_threshold := 80, low_battery_threshold := 15,
        emergency_stop_on_fault := true, max_throttle := 100,
        current_limit := .vFloat 50 } : Config).emergency_stop_on_fault = true ∧
    (({ telemetry := [], faults := [], connected := false } : CState).faults.any
      (fun x => pyEq x (faultOf (parseMessage "<FAULT:FAULT=OVERCURRENT>".data)))) = false ∧
    handle_fault
      { overheat_threshold := 80, low_battery_threshold := 15,
        emergency_stop_on_fault := true, max_throttle := 100, current_limit := .vFloat 50 }
      (parseMessage "<FAULT:FAULT=OVERCURRENT>".data)
      { telemetry := [], faults := [], connected := false } =
      ({ telemetry := [], faults := [.vStr "OVERCURRENT".data], connected := false },
        [estopFrame]) := by
  refine ⟨rfl, by decide, ?_⟩
  have h := fault_estop_new_fault
    { overheat_threshold := 80, low_battery_threshold := 15,
      emergency_stop_on_fault := true, max_throttle := 100, current_limit := .vFloat 50 }
    (parseMessage "<FAULT:FAULT=OVERCURRENT>".data)
    { telemetry := [], faults := [], connected := false } rfl (by decide)
  rw [h.1]
  decide

theorem ratBeq_comm (x y : Rat) : (x == y) = (y == x) := by
  by_cases h : x = y
  · rw [h]
  · rw [beq_eq_false_iff_ne.mpr h, beq_eq_false_iff_ne.mpr (Ne.symm h)]

theorem listCharBeq_comm (x y : List Char) : (x == y) = (y == x) := by
  by_cases h : x = y
  · rw [h]
  · rw [beq_eq_false_iff_ne.mpr h, beq_eq_false_iff_ne.mpr (Ne.symm h)]

theorem pyEq_refl (a : PyVal) : pyEq a a = true := by
  cases a <;> simp [pyEq, numValQ]

theorem pyEq_symm (a b : PyVal) : pyEq a b = pyEq b a := by
  cases a <;> cases b <;> simp [pyEq, numValQ, ratBeq_comm, listCharBeq_comm]

theorem pyEq_trans {a b c : PyVal} (hab : pyEq a b = true) (hbc : pyEq b c = true) :
    pyEq a c = true := by
  cases a <;> cases b <;> cases c <;> simp_all [pyEq, numValQ, beq_iff_eq]

theorem pairwise_addFaultIfAbsent (f : PyVal) (fs : List PyVal)
    (h : List.Pairwise (fun a b => pyEq a b = false) fs) :
    List.Pairwise (fun a b => pyEq a b = false) (addFaultIfAbsent f fs) := by
  unfold addFaultIfAbsent
  split
  · exact h
  · next hany =>
    rw [List.pairwise_append]
    refine ⟨h, List.pairwise_singleton _ _, ?_⟩
    intro x hx y hy
    rw [List.mem_singleton] at hy
    subst hy
    by_contra hc
    rw [Bool.not_eq_false] at hc
    exact hany (List.any_eq_true.mpr ⟨x, hx, hc⟩)

theorem handle_fault_faults (cfg : Config) (m : Msg) (s : CState) :
    (handle_fault cfg m s).1.faults = addFaultIfAbsent (faultOf m) s.faults := by
  unfold handle_fault addFaultIfAbsent
  by_cases h : s.faults.any (fun x => pyEq x (faultOf m)) = true
  · rw [if_pos h, if_pos h]
  · rw [if_neg h, if_neg h]

theorem check_safety_faults (cfg : Config) (s : CState) :
    (check_safety cfg s).faults = s.faults ∨
    (check_safety cfg s).faults = addFaultIfAbsent (.vStr "OVERHEAT".data) s.faults ∨
    (check_safety cfg s).faults = addFaultIfAbsent (.vStr "LOW_BATTERY".data) s.faults ∨
    (check_safety cfg s).faults =
      addFaultIfAbsent (.vStr "LOW_BATTERY".data)
        (addFaultIfAbsent (.vStr "OVERHEAT".data) s.faults) := by
  simp only [check_safety]
  split
  · exact Or.inl rfl
  · split
    · split
      · exact Or.inr (Or.inl rfl)
      · exact Or.inl rfl
    · split
      · split
        · exact Or.inr (Or.inr (Or.inr rfl))
        · exact Or.inr (Or.inr (Or.inl rfl))
      · split
        · exact Or.inr (Or.inl rfl)
        · exact Or.inl rfl

theorem handle_telemetry_pairwise (cfg : Config) (m : Msg) (s : CState)
    (h : List.Pairwise (fun a b => pyEq a b = false) s.faults) :
    List.Pairwise (fun a b => pyEq a b = false) (handle_telemetry cfg m s).faults := by
  unfold handle_telemetry
  rcases check_safety_faults cfg
      { s with telemetry := dictUpdate s.telemetry m.data, connected := true } with
    h1 | h1 | h1 | h1 <;> rw [h1]
  · exact h
  · exact pairwise_addFaultIfAbsent _ _ h
  · exact pairwise_addFaultIfAbsent _ _ h
  · exact pairwise_addFaultIfAbsent _ _ (pairwise_addFaultIfAbsent _ _ h)

theorem reachable_pairwise {fs : List PyVal} (h : ReachableFaults fs) :
    List.Pairwise (fun a b => pyEq a b = false) fs := by
  induction h with
  | start => exact List.Pairwise.nil
  | telem cfg m t c hfs ih =>
    exact handle_telemetry_pairwise cfg m ⟨t, _, c⟩ ih
  | fault cfg m t c hfs ih =>
    rw [handle_fault_faults]
    exact pairwise_addFaultIfAbsent _ _ ih
  | reset sendOk inbox t c hfs ih =>
    unfold reset_faults
    split
    · exact List.Pairwise.nil
    · exact ih

theorem countP_eq_zero_of_not_any {f : PyVal} {fs : List PyVal}
    (h : fs.any (fun x => pyEq x f) = false) :
    fs.countP (fun x => pyEq x f) = 0 := by
  rw [List.countP_eq_zero]
  intro x hx hc
  have : fs.any (fun x => pyEq x f) = true := List.any_eq_true.mpr ⟨x, hx, hc⟩
  rw [h] at this
  cases this

theorem countP_eq_one_of_mem {f : PyVal} {fs : List PyVal}
    (hp : List.Pairwise (fun a b => pyEq a b = false) fs)
    (hmem : fs.any (fun x => pyEq x f) = true) :
    fs.countP (fun x => pyEq x f) = 1 := by
  induction fs with
  | nil => simp at hmem
  | cons x rest ih =>
    rw [List.pairwise_cons] at hp
    by_cases hx : pyEq x f = true
    · have hrest : rest.countP (fun y => pyEq y f) = 0 := by
        rw [List.countP_eq_zero]
        intro y hy hyf
        have hxy : pyEq x y = false := hp.1 y hy
        have hxy' : pyEq x y = true := pyEq_trans hx (by rw [pyEq_symm]; exact hyf)
        rw [hxy] at hxy'
        cases hxy'
      rw [List.countP_cons, if_pos hx, hrest]
    · have hxf : pyEq x f = false := by simpa using hx
      rw [List.countP_cons, if_neg hx, Nat.add_zero]
      apply ih hp.2
      rw [List.any_cons, hxf] at hmem
      rwa [Bool.false_or] at hmem

/-- C7: every fault list reachable from the empty initial state through the
fault-mutating operations (fault-message handling, telemetry threshold
checks, reset) has pairwise-distinct entries under Python ==, and handling
the same fault message twice from any reachable state leaves exactly one
occurrence of that fault name. -/
theorem faults_pairwise_distinct (fs : List PyVal) (h : ReachableFaults fs) :
    List.Pairwise (fun a b => pyEq a b = false) fs ∧
    ∀ (cfg cfg2 : Config) (m : Msg) (t t2 : Dict) (c c2 : Bool),
      ((handle_fault cfg2 m
          ⟨t2, (handle_fault cfg m ⟨t, fs, c⟩).1.faults, c2⟩).1.faults).countP
        (fun x => pyEq x (faultOf m)) = 1 := by
  refine ⟨reachable_pairwise h, ?_⟩
  intro cfg cfg2 m t t2 c c2
  rw [handle_fault_faults, handle_fault_faults]
  show ((addFaultIfAbsent (faultOf m) (addFaultIfAbsent (faultOf m) fs)).countP
      (fun x => pyEq x (faultOf m))) = 1
  by_cases hmem : fs.any (fun x => pyEq x (faultOf m)) = true
  · have heq : addFaultIfAbsent (faultOf m) fs = fs := by
      unfold addFaultIfAbsent; rw [if_pos hmem]
    rw [heq, heq]
    exact countP_eq_one_of_mem (reachable_pairwise h) hmem
  · have hmemf : fs.any (fun x => pyEq x (faultOf m)) = false := by simpa using hmem
    have heq1 : addFaultIfAbsent (faultOf m) fs = fs ++ [faultOf m] := by
      unfold addFaultIfAbsent; rw [if_neg hmem]
    have hany2 : (fs ++ [faultOf m]).any (fun x => pyEq x (faultOf m)) = true := by
      rw [List.any_append]
      simp [pyEq_refl]
    have heq2 : addFaultIfAbsent (faultOf m) (fs ++ [faultOf m]) = fs ++ [faultOf m] := by
      unfold addFaultIfAbsent; rw [if_pos hany2]
    rw [heq1, heq2, List.countP_append, countP_eq_zero_of_not_any hmemf]
    simp [pyEq_refl]

theorem faults_pairwise_distinct_witness :
    ReachableFaults [] ∧
    ((handle_fault
        { overheat_threshold := 80, low_battery_threshold := 15,
          emergency_stop_on_fault := true, max_throttle := 100, current_limit := .vFloat 50 }
        (parseMessage "<FAULT:FAULT=OVERCURRENT>".data)
        ⟨[], (handle_fault
            { overheat_threshold := 80, low_battery_threshold := 15,
              emergency_stop_on_fault := true, max_throttle := 100,
              current_limit := .vFloat 50 }
            (parseMessage "<FAULT:FAULT=OVERCURRENT>".data)
            ⟨[], [], false⟩).1.faults, false⟩).1.faults).countP
      (fun x => pyEq x (faultOf (parseMessage "<FAULT:FAULT=OVERCURRENT>".data))) = 1 := by
  refine ⟨ReachableFaults.start, ?_⟩
  exact (faults_pairwise_distinct [] ReachableFaults.start).2
    { overheat_threshold := 80, low_battery_threshold := 15,
      emergency_stop_on_fault := true, max_throttle := 100, current_limit := .vFloat 50 }
    { overheat_threshold := 80, low_battery_threshold := 15,
      emergency_stop_on_fault := true, max_throttle := 100, current_limit := .vFloat 50 }
    (parseMessage "<FAULT:FAULT=OVERCURRENT>".data) [] [] false false

theorem telemetry_overheat_scenario_witness :
    dictLookup (handle_telemetry
        { overheat_threshold := 80, low_battery_threshold := 15,
          emergency_stop_on_fault := true, max_throttle := 100, current_limit := .vFloat 50 }
        (parseMessage "<DATA:TEMP=85.0;SOC=50>".data)
        { telemetry := [], faults := [], connected := false }).telemetry "TEMP".data
      = some (.vFloat 85) ∧
    (handle_telemetry
        { overheat_threshold := 80, low_battery_threshold := 15,
          emergency_stop_on_fault := true, max_throttle := 100, current_limit := .vFloat 50 }
        (parseMessage "<DATA:TEMP=85.0;SOC=50>".data)
        { telemetry := [], faults := [], connected := false }).faults
      = [.vStr "OVERHEAT".data] := by
  have h := telemetry_overheat_scenario
    { overheat_threshold := 80, low_battery_threshold := 15,
      emergency_stop_on_fault := true, max_throttle := 100, current_limit := .vFloat 50 }
    { telemetry := [], faults := [], connected := false } rfl rfl
  refine ⟨h.1, ?_⟩
  rw [h.2.2.2.1]
  decide

/-- C8: when no message drained within the 0.5 s window matches an
acknowledgement of SET_CURRENT_LIMIT, set_current_limit returns false and
the configuration — in particular its current_limit entry — is left
unchanged; the frame sent for limit 40 is <SET_CURRENT_LIMIT:LIMIT=40>. -/
theorem set_current_limit_timeout (current : PyVal) (sendOk : Bool) (inbox : List Msg)
    (cfg : Config)
    (h : ∀ m ∈ inbox, isMatchingAck "SET_CURRENT_LIMIT".data m = false) :
    set_current_limit current sendOk inbox cfg = (false, cfg) ∧
    buildMessage "SET_CURRENT_LIMIT".data [("LIMIT".data, .vInt 40)] =
      some "<SET_CURRENT_LIMIT:LIMIT=40>".data := by
  constructor
  · have hwait : wait_for_ack "SET_CURRENT_LIMIT".data inbox = false := by
      rw [wait_for_ack_eq_any, List.any_eq_false]
      intro m hm
      rw [h m hm]
      exact Bool.false_ne_true
    simp [set_current_limit, hwait]
  · decide

theorem set_current_limit_timeout_witness :
    (∀ m ∈ [parseMessage "<DATA:TEMP=30.0>".data],
      isMatchingAck "SET_CURRENT_LIMIT".data m = false) ∧
    set_current_limit (.vInt 40) true [parseMessage "<DATA:TEMP=30.0>".data]
        { overheat_threshold := 80, low_battery_threshold := 15,
          emergency_stop_on_fault := true, max_throttle := 100, current_limit := .vFloat 50 } =
      (false,
        { overheat_threshold := 80, low_battery_threshold := 15,
          emergency_stop_on_fault := true, max_throttle := 100, current_limit := .vFloat 50 }) ∧
    buildMessage "SET_CURRENT_LIMIT".data [("LIMIT".data, .vInt 40)] =
      some "<SET_CURRENT_LIMIT:LIMIT=40>".data := by
  have hm : ∀ m ∈ [parseMessage "<DATA:TEMP=30.0>".data],
      isMatchingAck "SET_CURRENT_LIMIT".data m = false := by decide
  have h := set_current_limit_timeout (.vInt 40) true [parseMessage "<DATA:TEMP=30.0>".data]
    { overheat_threshold := 80, low_battery_threshold := 15,
      emergency_stop_on_fault := true, max_throttle := 100, current_limit := .vFloat 50 } hm
  exact ⟨hm, h.1, h.2⟩

theorem buildMessage_single (msgType key : List Char) (v : PyVal) (vs : List Char)
    (hv : pyStrOfVal v = some vs) :
    buildMessage msgType [(key, v)] =
      some ('<' :: msgType ++ ':' :: key ++ '=' :: vs ++ ['>']) := by
  unfold buildMessage
  rw [if_neg (by simp)]
  have h1 : renderParam (key, v) = some (key ++ '=' :: vs) := by simp [renderParam, hv]
  rw [show ([(key, v)].mapM renderParam) = some [key ++ '=' :: vs] from by
    rw [List.mapM_cons, h1, List.mapM_nil]; rfl]
  simp [List.intercalate]

/-- C10: set_max_throttle clamps its argument before transmission: the
MAX_THROTTLE parameter in the SET_MAX_CURRENT frame equals
max 0 (min 100 n), which always lies in [0, 100] even for out-of-range n;
on confirmed success the clamped value — not n — is stored in the
configuration, and on failure the configuration is unchanged. -/
theorem set_max_throttle_clamps (n : Int) (sendOk : Bool) (inbox : List Msg) (cfg : Config) :
    0 ≤ max 0 (min 100 n) ∧ max 0 (min 100 n) ≤ 100 ∧
    (set_max_throttle n sendOk inbox cfg).2.2 =
      some ('<' :: "SET_MAX_CURRENT".data ++ ':' :: "MAX_THROTTLE".data ++ '=' ::
        intRepr (max 0 (min 100 n)) ++ ['>']) ∧
    ((set_max_throttle n sendOk inbox cfg).1 = true →
      (set_max_throttle n sendOk inbox cfg).2.1.max_throttle = max 0 (min 100 n)) ∧
    ((set_max_throttle n sendOk inbox cfg).1 = false →
      (set_max_throttle n sendOk inbox cfg).2.1 = cfg) := by
  have hframe := buildMessage_single "SET_MAX_CURRENT".data "MAX_THROTTLE".data
    (.vInt (max 0 (min 100 n))) (intRepr (max 0 (min 100 n))) rfl
  by_cases hc : (sendOk && wait_for_ack "SET_MAX_CURRENT".data inbox) = true
  · refine ⟨le_max_left _ _, by omega, ?_, ?_, ?_⟩
    · simp only [set_max_throttle, hc, if_true]
      exact hframe
    · intro _
      simp [set_max_throttle, hc]
    · intro hfalse
      simp [set_max_throttle, hc] at hfalse
  · refine ⟨le_max_left _ _, by omega, ?_, ?_, ?_⟩
    · simp only [set_max_throttle, hc, if_false]
      exact hframe
    · intro htrue
      simp [set_max_throttle, hc] at htrue
    · intro _
      simp [set_max_throttle, hc]

theorem set_max_throttle_clamps_witness :
    0 ≤ max 0 (min 100 (150 : Int)) ∧ max 0 (min 100 (150 : Int)) ≤ 100 ∧
    (set_max_throttle 150 true [parseMessage "<ACK:ACK=SET_MAX_CURRENT>".data]
        { overheat_threshold := 80, low_battery_threshold := 15,
          emergency_stop_on_fault := true, max_throttle := 100,
          current_limit := .vFloat 50 }).2.2 =
      some "<SET_MAX_CURRENT:MAX_THROTTLE=100>".data ∧
    (set_max_throttle 150 true [parseMessage "<ACK:ACK=SET_MAX_CURRENT>".data]
        { overheat_threshold := 80, low_battery_threshold := 15,
          emergency_stop_on_fault := true, max_throttle := 100,
          current_limit := .vFloat 50 }).2.1.max_throttle = 100 := by
  have h := set_max_throttle_clamps 150 true [parseMessage "<ACK:ACK=SET_MAX_CURRENT>".data]
    { overheat_threshold := 80, low_battery_threshold := 15,
      emergency_stop_on_fault := true, max_throttle := 100, current_limit := .vFloat 50 }
  refine ⟨h.1, h.2.1, ?_, ?_⟩
  · rw [h.2.2.1]
    decide
  · have h4 := h.2.2.2.1 (by decide)
    rw [h4]
    decide

theorem charBeq_comm (x y : Char) : (x == y) = (y == x) := by
  by_cases h : x = y
  · rw [h]
  · rw [beq_eq_false_iff_ne.mpr h, beq_eq_false_iff_ne.mpr (Ne.symm h)]

theorem contains_false_forall {c : Char} {l : List Char} (h : l.contains c = false) :
    ∀ y ∈ l, (y == c) = false := by
  rw [List.contains_eq_any_beq, List.any_eq_false] at h
  intro y hy
  rw [charBeq_comm]
  simpa using h y hy

theorem splitAll_single {c : Char} : ∀ {l : List Char},
    (∀ y ∈ l, (y == c) = false) → splitAll c l = [l] := by
  intro l
  induction l with
  | nil => intro _; rfl
  | cons x xs ih =>
    intro h
    have hx : (x == c) = false := h x (by simp)
    have hxs := ih (fun y hy => h y (by simp [hy]))
    simp [splitAll, hx, hxs]

theorem parseParams_kv (key value : List Char)
    (hkey : ∀ y ∈ key, (y == '=') = false)
    (hsingle : ∀ y ∈ key ++ '=' :: value, (y == ';') = false) :
    parseParams (key ++ '=' :: value) = [(key, typeValue value)] := by
  unfold parseParams
  rw [splitAll_single hsingle]
  simp only [List.foldl_cons, List.foldl_nil]
  rw [show splitFirst '=' (key ++ '=' :: value) = some (key, value) from
    splitFirstBy_append_sound '=' hkey (by simp)]
  simp [dictInsert]

theorem parseParams_flag (param : List Char)
    (hpe : ∀ y ∈ param, (y == '=') = false)
    (hps : ∀ y ∈ param, (y == ';') = false) :
    parseParams param = [(param, .vBool true)] := by
  unfold parseParams
  rw [splitAll_single hps]
  simp only [List.foldl_cons, List.foldl_nil]
  rw [show splitFirst '=' param = none from splitFirstBy_eq_none.mpr hpe]
  simp [dictInsert]

/-- C6 counterexample: the token K=a.b carries a value containing '.', but
float() fails on "a.b", so the decoder leaves the string "a.b" — not a
floating-point value as the claim states for every '.'-containing value. -/
theorem value_typing_counterexample :
    ("a.b".data).contains '.' = true ∧
    typeValue "a.b".data = .vStr "a.b".data ∧
    isFloatVal (typeValue "a.b".data) = false ∧
    parseMessage "<T:K=a.b>".data =
      { type := "T".data, data := [("K".data, .vStr "a.b".data)] } := by
  refine ⟨by decide, by decide, by decide, by decide⟩

/-- C6 (amended): a payload token without '=' becomes a key mapped to
boolean true; in a key=value token the value is typed by: containing '.'
and parsed by float() → that float; containing '.' but rejected by float()
→ left as the original string (the claim said every '.'-containing value
becomes a float); no '.' and parsed by int() → that integer; otherwise left
as the original string. -/
theorem value_typing_rule (key value param : List Char)
    (hkey : key.contains '=' = false)
    (hks : key.contains ';' = false) (hvs : value.contains ';' = false)
    (hpe : param.contains '=' = false) (hps : param.contains ';' = false) :
    parseParams (key ++ '=' :: value) = [(key, typeValue value)] ∧
    parseParams param = [(param, .vBool true)] ∧
    (value.contains '.' = true → ∀ q, pyFloatNumParse value = some q →
      typeValue value = .vFloat q) ∧
    (value.contains '.' = true → pyFloatNumParse value = none →
      typeValue value = .vStr value) ∧
    (value.contains '.' = false → ∀ z, pyIntParse value = some z →
      typeValue value = .vInt z) ∧
    (value.contains '.' = false → pyIntParse value = none →
      typeValue value = .vStr value) := by
  refine ⟨?_, ?_, ?_, ?_, ?_, ?_⟩
  · apply parseParams_kv key value (contains_false_forall hkey)
    intro y hy
    rcases List.mem_append.mp hy with hy | hy
    · exact contains_false_forall hks y hy
    · rcases List.mem_cons.mp hy with rfl | hy
      · decide
      · exact contains_false_forall hvs y hy
  · exact parseParams_flag param (contains_false_forall hpe) (contains_false_forall hps)
  · intro hdot q hq
    unfold typeValue
    rw [if_pos hdot, hq]
  · intro hdot hq
    unfold typeValue
    rw [if_pos hdot, hq]
  · intro hdot z hz
    unfold typeValue
    rw [if_neg (by rw [hdot]; exact Bool.false_ne_true), hz]
  · intro hdot hz
    unfold typeValue
    rw [if_neg (by rw [hdot]; exact Bool.false_ne_true), hz]

theorem value_typing_rule_witness :
    parseParams ("TEMP".data ++ '=' :: "85.0".data) = [("TEMP".data, .vFloat 85)] ∧
    parseParams "FLAG".data = [("FLAG".data, .vBool true)] ∧
    typeValue "85.0".data = .vFloat 85 ∧
    typeValue "SOC".data = .vStr "SOC".data := by
  have h := value_typing_rule "TEMP".data "85.0".data "FLAG".data
    (by decide) (by decide) (by decide) (by decide) (by decide)
  have hf : typeValue "85.0".data = .vFloat 85 :=
    h.2.2.1 (by decide) 85 (by decide)
  refine ⟨?_, h.2.1, hf, by decide⟩
  rw [h.1, hf]

theorem splitFirst_isSome_of_contains {c : Char} {l : List Char}
    (h : l.contains c = true) : (splitFirst c l).isSome = true := by
  cases hs : splitFirst c l with
  | some _ => rfl
  | none =>
    have hall := splitFirstBy_eq_none.mp hs
    rw [List.contains_eq_any_beq, List.any_eq_true] at h
    obtain ⟨y, hy, hyc⟩ := h
    rw [charBeq_comm] at hyc
    rw [hall y hy] at hyc
    cases hyc

theorem parseParamsSim_eq (dataStr : List Char)
    (hall : ∀ p ∈ splitAll ';' dataStr, p.contains '=' = true) :
    parseParamsSim dataStr = parseParams dataStr := by
  unfold parseParams parseParamsSim
  suffices hgen : ∀ (L : List (List Char)), (∀ p ∈ L, p.contains '=' = true) →
      ∀ d : Dict,
        L.foldl (fun data param =>
          match splitFirst '=' param with
          | some kv => dictInsert data kv.1 (typeValue kv.2)
          | none => data) d =
        L.foldl (fun data param =>
          match splitFirst '=' param with
          | some kv => dictInsert data kv.1 (typeValue kv.2)
          | none => dictInsert data param (.vBool true)) d by
    exact hgen _ hall _
  intro L
  induction L with
  | nil => intro _ d; rfl
  | cons p ps ih =>
    intro hL d
    have hp := hL p (by simp)
    have hsome := splitFirst_isSome_of_contains hp
    cases hs : splitFirst '=' p with
    | none =>
      rw [hs] at hsome
      cases hsome
    | some kv =>
      simp only [List.foldl_cons]
      rw [hs]
      exact ih (fun q hq => hL q (List.mem_cons_of_mem _ hq)) _

/-- C9 (amended): for every raw frame string the three duplicated decoders
compute the same kind, and the main-application and standalone-test parsers
agree entirely (none of them can fail on a string input); the simulator's
parser produces the same typed payload exactly when every payload token
contains '=', because its parameter loop drops boolean-flag tokens. -/
theorem parsers_agreement :
    (∀ s2 : List Char, parseMessageStandalone s2 = parseMessage s2) ∧
    (∀ s2 : List Char, (parseMessageSim s2).type = (parseMessage s2).type) ∧
    (∀ s2 : List Char,
      (∀ p ∈ splitAll ';' (payloadSection s2), p.contains '=' = true) →
      parseMessageSim s2 = parseMessage s2) := by
  refine ⟨fun _ => rfl, ?_, ?_⟩
  · intro s2
    simp only [parseMessageSim, parseMessage]
    cases h : splitFirst ':' (stripFrame s2) <;> simp [h]
  · intro s2 hall
    simp only [parseMessageSim, parseMessage]
    cases h : splitFirst ':' (stripFrame s2) with
    | none => simp [h]
    | some td =>
      have hps : payloadSection s2 = td.2 := by
        unfold payloadSection
        rw [h]
      rw [hps] at hall
      by_cases he : td.2.isEmpty = true
      · simp [h, he]
      · simp only [h, Bool.not_eq_true] at he ⊢
        simp [he, parseParamsSim_eq td.2 hall]

/-- C9 counterexample: on the frame <CMD:FLAG> the main parser produces the
payload mapping FLAG to boolean true while the simulator's parser drops the
token and produces an empty payload — the duplicated decoders are not the
same design. -/
theorem parsers_disagreement_counterexample :
    (parseMessageSim "<CMD:FLAG>".data).type = (parseMessage "<CMD:FLAG>".data).type ∧
    (parseMessageSim "<CMD:FLAG>".data).data = [] ∧
    (parseMessage "<CMD:FLAG>".data).data = [("FLAG".data, .vBool true)] ∧
    parseMessageSim "<CMD:FLAG>".data ≠ parseMessage "<CMD:FLAG>".data := by
  refine ⟨by decide, by decide, by decide, by decide⟩

theorem parsers_agreement_witness :
    (∀ p ∈ splitAll ';' (payloadSection "<DATA:TEMP=85.0;SOC=50>".data),
      p.contains '=' = true) ∧
    parseMessageSim "<DATA:TEMP=85.0;SOC=50>".data =
      parseMessage "<DATA:TEMP=85.0;SOC=50>".data := by
  have hall : ∀ p ∈ splitAll ';' (payloadSection "<DATA:TEMP=85.0;SOC=50>".data),
      p.contains '=' = true := by decide
  exact ⟨hall, parsers_agreement.2.2 _ hall⟩

theorem dropWhile_eq_self_of_head (p : Char → Bool) (x : Char) (xs : List Char)
    (hx : p x = false) : (x :: xs).dropWhile p = x :: xs := by
  rw [List.dropWhile_cons, if_neg (by simp [hx])]

theorem splitFirst_append_sound {a b : List Char} {c : Char}
    (ha : ∀ y ∈ a, (y == c) = false) :
    splitFirst c (a ++ c :: b) = some (a, b) := by
  unfold splitFirst
  exact splitFirstBy_append_sound c ha (by simp)

theorem pyStrip_wire (l : List Char) : pyStrip ('<' :: l ++ ['>']) = '<' :: l ++ ['>'] := by
  have h1 : List.dropWhile pyIsSpace ('<' :: l ++ ['>']) = '<' :: l ++ ['>'] :=
    dropWhile_eq_self_of_head _ _ _ (by decide)
  have hrev : ('<' :: l ++ ['>']).reverse = '>' :: ('<' :: l).reverse := by
    rw [List.reverse_append]
    rfl
  have h2 : List.dropWhile pyIsSpace ('<' :: l ++ ['>']).reverse =
      ('<' :: l ++ ['>']).reverse := by
    rw [hrev]
    exact dropWhile_eq_self_of_head _ _ _ (by decide)
  unfold pyStrip
  rw [h1, h2, List.reverse_reverse]

theorem lstrip_wire (c : Char) (rest : List Char) (hc : (c == '<') = false) :
    lstripChar '<' ('<' :: c :: rest) = c :: rest := by
  unfold lstripChar
  rw [List.dropWhile_cons, if_pos (by decide), List.dropWhile_cons,
    if_neg (by simp [hc])]

theorem rstrip_wire (body : List Char) (hb : body ≠ [])
    (hmem : '>' ∉ body) :
    rstripChar '>' (body ++ ['>']) = body := by
  unfold rstripChar
  have h1 : (body ++ ['>']).reverse = '>' :: body.reverse := by simp
  rw [h1, List.dropWhile_cons, if_pos (by decide)]
  cases hbr : body.reverse with
  | nil =>
    exact absurd (by simpa using congrArg List.reverse hbr) hb
  | cons x xs =>
    have hh : body.getLast? = some x := by
      rw [← List.head?_reverse, hbr]
      rfl
    have hxne : (x == '>') = false := by
      have hx : x ≠ '>' := fun he => hmem (he ▸ List.mem_of_getLast?_eq_some hh)
      simpa using hx
    rw [List.dropWhile_cons, if_neg (by simp [hxne]), ← hbr, List.reverse_reverse]

theorem intercalate_single (c : Char) (p : List Char) : List.intercalate [c] [p] = p := by
  simp [List.intercalate]

theorem intercalate_cons₂ (c : Char) (p q : List Char) (qs : List (List Char)) :
    List.intercalate [c] (p :: q :: qs) = p ++ c :: List.intercalate [c] (q :: qs) := by
  simp [List.intercalate, List.intersperse]

theorem mem_intercalate_char {c y : Char} :
    ∀ {parts : List (List Char)}, y ∈ List.intercalate [c] parts →
      y = c ∨ ∃ p ∈ parts, y ∈ p := by
  intro parts
  induction parts with
  | nil => intro h; simp [List.intercalate] at h
  | cons p ps ih =>
    cases ps with
    | nil =>
      intro h
      rw [intercalate_single] at h
      exact Or.inr ⟨p, by simp, h⟩
    | cons q qs =>
      intro h
      rw [intercalate_cons₂] at h
      rcases List.mem_append.mp h with h | h
      · exact Or.inr ⟨p, by simp, h⟩
      · rcases List.mem_cons.mp h with rfl | h
        · exact Or.inl rfl
        · rcases ih h with h | ⟨r, hr, hy⟩
          · exact Or.inl h
          · exact Or.inr ⟨r, by simp [hr], hy⟩

theorem splitAll_append_cons (c : Char) :
    ∀ (a rest : List Char), (∀ y ∈ a, (y == c) = false) →
      splitAll c (a ++ c :: rest) = a :: splitAll c rest := by
  intro a
  induction a with
  | nil =>
    intro rest _
    simp [splitAll]
  | cons x xs ih =>
    intro rest h
    have hx : (x == c) = false := h x (by simp)
    have hxs := ih rest (fun y hy => h y (by simp [hy]))
    simp only [List.cons_append, splitAll, hx, Bool.false_eq_true, if_false, List.append_eq]
    rw [hxs]

theorem splitAll_intercalate (c : Char) :
    ∀ (parts : List (List Char)), parts ≠ [] →
      (∀ p ∈ parts, ∀ y ∈ p, (y == c) = false) →
      splitAll c (List.intercalate [c] parts) = parts := by
  intro parts
  induction parts with
  | nil => intro h; cases h rfl
  | cons p ps ih =>
    intro _ hall
    cases ps with
    | nil =>
      rw [intercalate_single]
      rw [splitAll_single (hall p (by simp))]
    | cons q qs =>
      rw [intercalate_cons₂]
      rw [splitAll_append_cons c p _ (hall p (by simp))]
      rw [ih (by simp) (fun r hr y hy => hall r (by simp [hr]) y hy)]

theorem mapM_renderParam :
    ∀ (params : List (List Char × PyVal)),
      (∀ kv ∈ params, (pyStrOfVal kv.2).isSome = true) →
      params.mapM renderParam =
        some (params.map (fun kv => kv.1 ++ '=' :: (pyStrOfVal kv.2).getD [])) := by
  intro params
  induction params with
  | nil => intro _; rfl
  | cons kv ps ih =>
    intro hv
    have hkv := hv kv (by simp)
    cases hs : pyStrOfVal kv.2 with
    | none => rw [hs] at hkv; cases hkv
    | some vs =>
      have hr : renderParam kv = some (kv.1 ++ '=' :: vs) := by simp [renderParam, hs]
      rw [List.mapM_cons, hr, ih (fun q hq => hv q (by simp [hq]))]
      simp [hs]

theorem foldl_insert_typed_of_distinct :
    ∀ (L : List (List Char × PyVal)) (acc : Dict),
      (∀ kv ∈ L, acc.any (fun p => p.1 == kv.1) = false) →
      List.Pairwise (fun a b => a.1 ≠ b.1) L →
      L.foldl (fun d kv => dictInsert d kv.1 (typeValue ((pyStrOfVal kv.2).getD []))) acc =
        acc ++ L.map (fun kv => (kv.1, typeValue ((pyStrOfVal kv.2).getD []))) := by
  intro L
  induction L with
  | nil => intro acc _ _; simp
  | cons kv ps ih =>
    intro acc hacc hp
    rw [List.pairwise_cons] at hp
    have h1 : dictInsert acc kv.1 (typeValue ((pyStrOfVal kv.2).getD [])) =
        acc ++ [(kv.1, typeValue ((pyStrOfVal kv.2).getD []))] := by
      unfold dictInsert
      rw [if_neg (by rw [hacc kv (by simp)]; exact Bool.false_ne_true)]
    simp only [List.foldl_cons]
    rw [h1]
    rw [ih (acc ++ [(kv.1, typeValue ((pyStrOfVal kv.2).getD []))]) ?_ hp.2]
    · simp
    · intro q hq
      rw [List.any_append]
      have ha := hacc q (by simp [hq])
      have hne : kv.1 ≠ q.1 := hp.1 q hq
      simp [ha, hne]

theorem foldl_parse_rendered :
    ∀ (L : List (List Char × PyVal)) (d : Dict),
      (∀ kv ∈ L, ∀ y ∈ kv.1, (y == '=') = false) →
      (L.map fun kv => kv.1 ++ '=' :: (pyStrOfVal kv.2).getD []).foldl
        (fun data param =>
          match splitFirst '=' param with
          | some kv => dictInsert data kv.1 (typeValue kv.2)
          | none => dictInsert data param (.vBool true)) d =
      L.foldl
        (fun d kv => dictInsert d kv.1 (typeValue ((pyStrOfVal kv.2).getD []))) d := by
  intro L
  induction L with
  | nil => intro d _; rfl
  | cons kv ps ih =>
    intro d hk
    simp only [List.map_cons, List.foldl_cons]
    rw [splitFirst_append_sound (hk kv (by simp))]
    exact ih _ (fun q hq => hk q (List.mem_cons_of_mem _ hq))

theorem parseParams_rendered (params : List (List Char × PyVal))
    (hkey : ∀ kv ∈ params, ∀ y ∈ kv.1, (y == '=') = false ∧ (y == ';') = false)
    (hvc : ∀ kv ∈ params, ∀ y ∈ (pyStrOfVal kv.2).getD [], (y == ';') = false)
    (hdk : params.Pairwise (fun a b => a.1 ≠ b.1))
    (hne : params ≠ []) :
    parseParams (List.intercalate [';']
        (params.map (fun kv => kv.1 ++ '=' :: (pyStrOfVal kv.2).getD []))) =
      params.map (fun kv => (kv.1, typeValue ((pyStrOfVal kv.2).getD []))) := by
  unfold parseParams
  rw [splitAll_intercalate ';' _ (by simpa using hne) ?_]
  · rw [foldl_parse_rendered params [] (fun kv hkv y hy => (hkey kv hkv y hy).1)]
    rw [foldl_insert_typed_of_distinct params [] (by intro kv _; rfl) hdk]
    simp
  · intro p hp y hy
    rw [List.mem_map] at hp
    obtain ⟨kv, hkv, rfl⟩ := hp
    rcases List.mem_append.mp hy with hy | hy
    · exact (hkey kv hkv y hy).2
    · rcases List.mem_cons.mp hy with rfl | hy
      · decide
      · exact hvc kv hkv y hy

/-- C5 counterexample: encoding kind A:B with an empty payload produces the
frame <A:B>, which decodes to kind A with payload B mapped to true — the
original kind is not reproduced, so the round trip fails for arbitrary kind
strings. -/
theorem encode_decode_counterexample :
    buildMessage "A:B".data [] = some "<A:B>".data ∧
    (parseMessage "<A:B>".data).type = "A".data ∧
    "A".data ≠ "A:B".data := by
  refine ⟨by decide, by decide, by decide⟩

/-- C5 (amended): for a nonempty kind free of ':', '<' and '>', and a payload
with pairwise-distinct keys free of '=', ';' and '>' whose values are
non-float and render to text free of ';' and '>', decoding the encoded frame
succeeds, reproduces the kind exactly, and yields the payload with every
value replaced by the decoder's typing of its rendered text (the type
coercion of the claim); in particular an integer value like 5 round-trips to
the same integer.  Without these restrictions the round trip fails (see the
counterexample); float values are excluded because str() of a float is
CPython's shortest-repr formatting, which is not modelled. -/
theorem encode_decode_round_trip (kind : List Char) (params : List (List Char × PyVal))
    (hk0 : kind ≠ [])
    (hk : ∀ y ∈ kind, (y == ':') = false ∧ (y == '<') = false ∧ (y == '>') = false)
    (hkey : ∀ kv ∈ params, ∀ y ∈ kv.1,
      (y == '=') = false ∧ (y == ';') = false ∧ (y == '>') = false)
    (hv : ∀ kv ∈ params, (pyStrOfVal kv.2).isSome = true)
    (hvc : ∀ kv ∈ params, ∀ y ∈ (pyStrOfVal kv.2).getD [],
      (y == ';') = false ∧ (y == '>') = false)
    (hdk : params.Pairwise (fun a b => a.1 ≠ b.1)) :
    ∃ w, buildMessage kind params = some w ∧
      parseMessage w =
        { type := kind,
          data := params.map (fun kv => (kv.1, typeValue ((pyStrOfVal kv.2).getD []))) } := by
  obtain ⟨c, k', rfl⟩ : ∃ c k', kind = c :: k' := by
    cases kind with
    | nil => cases hk0 rfl
    | cons c k' => exact ⟨c, k', rfl⟩
  cases params with
  | nil =>
    refine ⟨'<' :: (c :: k') ++ ['>'], ?_, ?_⟩
    · rfl
    · have hmem : '>' ∉ (c :: k') := by
        intro hm
        have := (hk '>' hm).2.2
        simp at this
      have hsf : stripFrame ('<' :: (c :: k') ++ ['>']) = c :: k' := by
        unfold stripFrame
        rw [pyStrip_wire]
        rw [show ('<' :: (c :: k') ++ ['>'] : List Char) = '<' :: c :: (k' ++ ['>']) from by
          simp]
        rw [lstrip_wire c (k' ++ ['>']) (hk c (by simp)).2.1]
        rw [show (c :: (k' ++ ['>']) : List Char) = (c :: k') ++ ['>'] from by simp]
        rw [rstrip_wire (c :: k') (by simp) hmem]
      simp only [parseMessage]
      rw [hsf]
      rw [show splitFirst ':' (c :: k') = none from by
        unfold splitFirst
        exact splitFirstBy_eq_none.mpr (fun y hy => (hk y hy).1)]
      rfl
  | cons kv ps =>
    have hmapM := mapM_renderParam (kv :: ps) hv
    set D := List.intercalate [';']
      ((kv :: ps).map (fun q => q.1 ++ '=' :: (pyStrOfVal q.2).getD [])) with hD
    have hDmem : ∀ y ∈ D, (y == '>') = false := by
      intro y hy
      rw [hD] at hy
      rcases mem_intercalate_char hy with rfl | ⟨p, hp, hyp⟩
      · decide
      · rw [List.mem_map] at hp
        obtain ⟨q, hq, rfl⟩ := hp
        rcases List.mem_append.mp hyp with hyp | hyp
        · exact (hkey q hq y hyp).2.2
        · rcases List.mem_cons.mp hyp with rfl | hyp
          · decide
          · exact (hvc q hq y hyp).2
    have hDne : D ≠ [] := by
      rw [hD]
      cases ps with
      | nil =>
        rw [List.map_cons, List.map_nil, intercalate_single]
        intro h
        have := congrArg List.length h
        simp at this
      | cons q qs =>
        rw [List.map_cons, List.map_cons, intercalate_cons₂]
        intro h
        have := congrArg List.length h
        simp at this
    refine ⟨'<' :: (c :: k') ++ ':' :: D ++ ['>'], ?_, ?_⟩
    · unfold buildMessage
      rw [if_neg (by simp)]
      rw [hmapM]
      rw [hD]
      rfl
    · have hbody : '>' ∉ (c :: k') ++ ':' :: D := by
        intro hm
        rcases List.mem_append.mp hm with hm | hm
        · have := (hk '>' hm).2.2
          simp at this
        · rcases List.mem_cons.mp hm with hm | hm
          · cases hm
          · have := hDmem '>' hm
            simp at this
      have hsf : stripFrame ('<' :: (c :: k') ++ ':' :: D ++ ['>']) =
          (c :: k') ++ ':' :: D := by
        unfold stripFrame
        rw [show ('<' :: (c :: k') ++ ':' :: D ++ ['>'] : List Char) =
            '<' :: ((c :: k') ++ ':' :: D) ++ ['>'] from by simp]
        rw [pyStrip_wire]
        rw [show ('<' :: ((c :: k') ++ ':' :: D) ++ ['>'] : List Char) =
            '<' :: c :: ((k' ++ ':' :: D) ++ ['>']) from by simp]
        rw [lstrip_wire c _ (hk c (by simp)).2.1]
        rw [show (c :: ((k' ++ ':' :: D) ++ ['>']) : List Char) =
            ((c :: k') ++ ':' :: D) ++ ['>'] from by simp]
        rw [rstrip_wire _ (by simp) hbody]
      simp only [parseMessage]
      rw [hsf]
      rw [splitFirst_append_sound (fun y hy => (hk y hy).1)]
      dsimp only
      have hPne : (kv :: ps : List (List Char × PyVal)) ≠ [] := by simp
      have hparse : parseParams D =
          (kv :: ps).map (fun q => (q.1, typeValue ((pyStrOfVal q.2).getD []))) := by
        rw [hD]
        exact parseParams_rendered (kv :: ps)
          (fun q hq y hy => ⟨(hkey q hq y hy).1, (hkey q hq y hy).2.1⟩)
          (fun q hq y hy => (hvc q hq y hy).1)
          hdk hPne
      rw [if_neg (fun hemp => hDne (by simpa using hemp))]
      rw [hparse]

theorem encode_decode_round_trip_witness :
    ∃ w, buildMessage "T".data [("X".data, PyVal.vInt 5)] = some w ∧
      parseMessage w =
        { type := "T".data, data := [("X".data, PyVal.vInt 5)] } := by
  obtain ⟨w, hw, hp⟩ := encode_decode_round_trip "T".data [("X".data, .vInt 5)]
    (by decide) (by decide) (by decide) (by decide) (by decide) (by simp)
  refine ⟨w, hw, ?_⟩
  rw [hp]
  decide

end EVSpec
